import Mathlib

/-!
Shallow embedding of the HCP individual-parcellation pipeline
(`hcp_merge_hemispheres.py` and `hcp_batch_resample_py.py`) and proofs
about the frozen claims.

Conventions of the embedding:
* numpy float values are modelled by `Val`: a finite rational, `nan`,
  `pinf` (+inf) or `ninf` (-inf).  Only the operations the validator
  performs on them (isnan / isinf tests, min/max reduction with NaN
  propagation, IEEE ordering where any comparison with NaN is false)
  are modelled; no float arithmetic is performed by the code under study.
* a 2-D numpy array (timepoints x vertices) is a list of rows
  (`Mat`); it is 2-dimensional by construction, and rectangularity is
  carried as an explicit hypothesis where a theorem needs it.
* the filesystem is a set of paths (`FS`), directories and logging are
  elided; the external `wb_command` binary is an oracle (`Tool`) mapping
  a command and a filesystem to an exit code, a captured stderr and the
  resulting filesystem.
-/

set_option maxRecDepth 4096

/-- Model of a numpy floating-point value: finite rational, NaN, or an
infinity.  Faithful for the comparison/reduction operations used by
`validate_merged_data`. -/
inductive Val where
  | fin (q : ℚ)
  | nan
  | pinf
  | ninf
deriving DecidableEq, Repr

namespace Val

/-- `np.isnan` on one element. -/
def isNan : Val → Bool
  | nan => true
  | _ => false

/-- `np.isinf` on one element (true for either infinity, false for NaN). -/
def isInf : Val → Bool
  | pinf => true
  | ninf => true
  | _ => false

/-- Pairwise minimum as used by `np.min` reduction: NaN propagates. -/
def vmin : Val → Val → Val
  | nan, _ => nan
  | _, nan => nan
  | ninf, _ => ninf
  | _, ninf => ninf
  | pinf, b => b
  | a, pinf => a
  | fin a, fin b => fin (min a b)

/-- Pairwise maximum as used by `np.max` reduction: NaN propagates. -/
def vmax : Val → Val → Val
  | nan, _ => nan
  | _, nan => nan
  | pinf, _ => pinf
  | _, pinf => pinf
  | ninf, b => b
  | a, ninf => a
  | fin a, fin b => fin (max a b)

/-- Python `<` on floats: any comparison involving NaN is false. -/
def vlt : Val → Val → Bool
  | nan, _ => false
  | _, nan => false
  | ninf, ninf => false
  | ninf, _ => true
  | _, ninf => false
  | pinf, _ => false
  | fin _, pinf => true
  | fin a, fin b => decide (a < b)

end Val

/-- A 2-D array: list of rows, each row a list of values.  `shape[0]` is
`m.length`, `shape[1]` is the length of the first row. -/
abbrev Mat := List (List Val)

/-- `shape[0]`: number of timepoints. -/
def nrows (m : Mat) : Nat := m.length

/-- `shape[1]`: number of vertices.  numpy stores the column count even
for 0-row arrays; the list model reads it off the first row, which
agrees with numpy on every non-empty array (all arrays the claims
evaluate are non-empty). -/
def ncols (m : Mat) : Nat := (m.head?.map List.length).getD 0

/-- All elements of the array in row-major order (`np.ravel` order),
used for elementwise reductions `any`/`min`/`max`. -/
def elems (m : Mat) : List Val := m.flatten

/-- `ts.min()` / `ts.max()`: reduction over all elements.  numpy raises
on an empty array; the `nan` returned here for the empty case is never
reached by any theorem (all carry non-emptiness hypotheses). -/
def matReduce (f : Val → Val → Val) (m : Mat) : Val :=
  match elems m with
  | [] => Val.nan
  | x :: xs => xs.foldl f x

/-- One entry of the `data` dict built by
`HCPBilateralProcessor.load_subject_data`. -/
structure TSEntry where
  timeseries : Mat
  filename : String
  n_timepoints : Nat
  n_vertices : Nat
deriving DecidableEq, Repr

/-- The per-subject `data` dict: association list keyed by the
acquisition key produced by `parse_filename` (dict keys are unique). -/
abbrev SubjectData := List (String × TSEntry)

/-- Python `data[key]` after `key in data`: first binding of the key. -/
def lookupTS (d : SubjectData) (k : String) : Option TSEntry :=
  (d.find? (fun p => p.1 == k)).map Prod.snd

/-- One entry of the `merged_data` dict built by
`HCPBilateralProcessor.merge_hemispheres`. -/
structure MergedEntry where
  timeseries : Mat
  filename : String
  n_timepoints : Nat
  n_vertices : Nat
  n_vertices_left : Nat
  n_vertices_right : Nat
  left_source : String
  right_source : String
deriving DecidableEq, Repr

/-- Lookup in the merged dict. -/
def lookupM (l : List (String × MergedEntry)) (k : String) : Option MergedEntry :=
  (l.find? (fun p => p.1 == k)).map Prod.snd

/-- `merge_pairs` from `merge_hemispheres`: (left key, right key, merged key). -/
def mergePairs : List (String × String × String) :=
  [("REST1_LR_L", "REST1_LR_R", "REST1_LR_bilateral"),
   ("REST1_RL_L", "REST1_RL_R", "REST1_RL_bilateral"),
   ("REST2_LR_L", "REST2_LR_R", "REST2_LR_bilateral"),
   ("REST2_RL_L", "REST2_RL_R", "REST2_RL_bilateral")]

/-- Body of the merge loop for one pair with both sides present:
truncate to the common length when timepoint counts differ, then
concatenate along the vertex axis (`np.concatenate(..., axis=1)`),
and record the metadata fields exactly as the source does. -/
def mergeEntry (ld rd : TSEntry) (mergedKey : String) : MergedEntry :=
  let left_ts0 := ld.timeseries
  let right_ts0 := rd.timeseries
  let pair :=
    if left_ts0.length ≠ right_ts0.length then
      let m := min left_ts0.length right_ts0.length
      (left_ts0.take m, right_ts0.take m)
    else (left_ts0, right_ts0)
  let left_ts := pair.1
  let right_ts := pair.2
  let merged := List.zipWith (fun a b => a ++ b) left_ts right_ts
  { timeseries := merged
    filename := mergedKey ++ ".func.gii"
    n_timepoints := nrows merged
    n_vertices := ncols merged
    n_vertices_left := ncols left_ts
    n_vertices_right := ncols right_ts
    left_source := ld.filename
    right_source := rd.filename }

/-- `if left_key in subject_data and right_key in subject_data` guard of
the merge loop, returning the merged entry when both sides are present. -/
def pairEntry (d : SubjectData) (lk rk mk : String) : Option MergedEntry :=
  match lookupTS d lk, lookupTS d rk with
  | some ld, some rd => some (mergeEntry ld rd mk)
  | _, _ => none

/-- `HCPBilateralProcessor.merge_hemispheres`: iterate the four fixed
pairs in order, keeping an entry exactly when both sides are present
(a missing side only logs and skips). -/
def merge_hemispheres (d : SubjectData) : List (String × MergedEntry) :=
  mergePairs.foldr
    (fun pr acc =>
      match pairEntry d pr.1 pr.2.1 pr.2.2 with
      | some e => (pr.2.2, e) :: acc
      | none => acc)
    []

/-! ## Validator (`validate_merged_data`) -/

/-- The `checks` dict computed for one merged record. -/
structure RecordChecks where
  shape_valid : Bool
  no_nan : Bool
  no_inf : Bool
  vertices_match : Bool
  timepoints_positive : Bool
  vertices_positive : Bool
  reasonable_range : Bool
deriving DecidableEq, Repr

/-- The per-record checks of `HCPBilateralProcessor.validate_merged_data`.
`len(ts.shape) == 2` holds for every value of the row-list model (which
only represents 2-D arrays, as every output of `np.concatenate` on 2-D
inputs is), so `shape_valid` is `true` by construction.
`reasonable_range` is the chained comparison
`-1000 < ts.min() < ts.max() < 1000`, each `<` with IEEE NaN semantics. -/
def computeChecks (e : MergedEntry) : RecordChecks :=
  let ts := e.timeseries
  let mn := matReduce Val.vmin ts
  let mx := matReduce Val.vmax ts
  { shape_valid := true
    no_nan := !((elems ts).any Val.isNan)
    no_inf := !((elems ts).any Val.isInf)
    vertices_match := ncols ts == e.n_vertices_left + e.n_vertices_right
    timepoints_positive := decide (0 < nrows ts)
    vertices_positive := decide (0 < ncols ts)
    reasonable_range :=
      Val.vlt (Val.fin (-1000)) mn && Val.vlt mn mx && Val.vlt mx (Val.fin 1000) }

/-- `failed_checks`: the names of the failing checks, in the insertion
order of the `checks` dict. -/
def failedChecks (c : RecordChecks) : List String :=
  (if c.shape_valid then [] else ["shape_valid"]) ++
  (if c.no_nan then [] else ["no_nan"]) ++
  (if c.no_inf then [] else ["no_inf"]) ++
  (if c.vertices_match then [] else ["vertices_match"]) ++
  (if c.timepoints_positive then [] else ["timepoints_positive"]) ++
  (if c.vertices_positive then [] else ["vertices_positive"]) ++
  (if c.reasonable_range then [] else ["reasonable_range"])

/-- `all_valid` over the whole merged dict: true iff no record has a
failing check (the source starts at `True` and clears it whenever a
record's `failed_checks` is non-empty). -/
def validate_merged_data (m : List (String × MergedEntry)) : Bool :=
  m.all (fun p => (failedChecks (computeChecks p.2)).isEmpty)

/-! ## `process_subject` of the merge script -/

/-- Outcome of `HCPBilateralProcessor.process_subject`: the returned
(success, payload) pair, the records written by `save_merged_data`, and
the validator verdict.  Logging and on-disk formats are elided. -/
structure MergeProcResult where
  success : Bool
  message : String
  saved : List (String × MergedEntry)
  allValid : Bool
deriving Repr

/-- `HCPBilateralProcessor.process_subject` after loading: a `none`
subject dataset is the `load_subject_data` failure path; otherwise merge,
validate (result only logged), and save every merged record regardless
of the validation verdict. -/
def process_subject_merge (subjectData : Option SubjectData) : MergeProcResult :=
  match subjectData with
  | none => ⟨false, "无法加载数据", [], true⟩
  | some d =>
    let merged := merge_hemispheres d
    if merged.isEmpty then ⟨false, "没有可合并的数据", [], true⟩
    else
      let av := validate_merged_data merged
      ⟨true, "", merged, av⟩

/-! ## Filename classification (`parse_filename`) -/

/-- `sub in s` for strings, on the character lists: `p` occurs as a
contiguous substring of `s`. -/
def hasSubstr (s p : List Char) : Bool :=
  match s with
  | [] => p.isEmpty
  | _ :: t => p.isPrefixOf s || hasSubstr t p

/-- Python `sub in filename`. -/
def hasSubstrS (s sub : String) : Bool := hasSubstr s.toList sub.toList

/-- The `patterns` dict of `parse_filename`, in insertion order. -/
def patterns : List (String × List String) :=
  [("REST1_LR_L", ["REST1", "LR", ".L."]),
   ("REST1_LR_R", ["REST1", "LR", ".R."]),
   ("REST1_RL_L", ["REST1", "RL", ".L."]),
   ("REST1_RL_R", ["REST1", "RL", ".R."]),
   ("REST2_LR_L", ["REST2", "LR", ".L."]),
   ("REST2_LR_R", ["REST2", "LR", ".R."]),
   ("REST2_RL_L", ["REST2", "RL", ".L."]),
   ("REST2_RL_R", ["REST2", "RL", ".R."])]

/-- `all(p in filename for p in pattern)`. -/
def patMatches (name : String) (subs : List String) : Bool :=
  subs.all (fun p => hasSubstrS name p)

/-- `HCPBilateralProcessor.parse_filename`: first pattern whose required
substrings are all present wins; `None` when no pattern matches. -/
def parse_filename (name : String) : Option String :=
  (patterns.find? (fun kp => patMatches name kp.2)).map Prod.fst

/-- Number of patterns that match a filename (used to examine the
mutual-exclusivity claim). -/
def matchCount (name : String) : Nat :=
  (patterns.filter (fun kp => patMatches name kp.2)).length

/-! ## Filesystem and external tool (`hcp_batch_resample_py.py`) -/

/-- The filesystem as the set of existing paths. -/
structure FS where
  files : List String
deriving DecidableEq, Repr

/-- `Path.exists()`. -/
def FS.hasFile (fs : FS) (p : String) : Bool := fs.files.contains p

/-- `Path.unlink(missing_ok=True)`. -/
def FS.unlink (fs : FS) (p : String) : FS := ⟨fs.files.filter (fun q => q != p)⟩

/-- A `wb_command` invocation, with the argument vector of the source
(`cmd_separate`, `cmd_resample_left`, `cmd_resample_right`). -/
inductive Cmd where
  | separate (input leftOut rightOut : String)
  | metricResample (src sphereSrc sphereTgt method out areaSrc areaTgt : String)
deriving DecidableEq, Repr

/-- The argv list the source passes to `subprocess.run`. -/
def cmdArgs : Cmd → List String
  | .separate input l r =>
      ["wb_command", "-cifti-separate", input, "COLUMN",
       "-metric", "CORTEX_LEFT", l, "-metric", "CORTEX_RIGHT", r]
  | .metricResample src ss st method out as1 as2 =>
      ["wb_command", "-metric-resample", src, ss, st, method, out,
       "-area-metrics", as1, as2]

/-- Result of one `subprocess.run(..., capture_output=True)`: exit code,
captured stderr, and the filesystem after any effects of the binary
(negative "killed by signal" codes are not modelled). -/
structure RunRes where
  returncode : Nat
  stderr : String
  fs : FS

/-- The external binary as an oracle. -/
def Tool := Cmd → FS → RunRes

/-- `str(list_of_args)` as Python renders it inside the exception text. -/
def listRepr (xs : List String) : String :=
  "[" ++ String.intercalate ", " (xs.map (fun s => "'" ++ s ++ "'")) ++ "]"

/-- `str(e)` for `e : subprocess.CalledProcessError` with a positive exit
code: it names the command and the exit status and does not include the
captured stderr. -/
def cpeStr (c : Cmd) (code : Nat) : String :=
  "Command '" ++ listRepr (cmdArgs c) ++ "' returned non-zero exit status "
    ++ toString code ++ "."

/-- The `for f in [...]: f.unlink(missing_ok=True)` cleanup of the
`except` branch, in source order. -/
def cleanupAll (fs : FS) (tempLeft tempRight outLeft outRight : String) : FS :=
  (((fs.unlink tempLeft).unlink tempRight).unlink outLeft).unlink outRight

/-- `Path.stem` for a filename without directory components: drop the
final dot-suffix (inputs here always contain an interior dot). -/
def stemChars (l : List Char) : List Char :=
  let r := l.reverse
  let i := r.findIdx (fun c => c = '.')
  if i < r.length then l.take (l.length - i - 1) else l

/-- Python `str.replace(pat, rep)`, left-to-right and non-overlapping,
written with a fuel argument (one unit per consumed character is always
enough) so that it stays structurally recursive. -/
def replaceAllFuel (pat rep : List Char) : Nat → List Char → List Char
  | 0, s => s
  | fuel + 1, s =>
    if pat ≠ [] ∧ pat.isPrefixOf s then
      rep ++ replaceAllFuel pat rep fuel (s.drop pat.length)
    else
      match s with
      | [] => []
      | c :: t => c :: replaceAllFuel pat rep fuel t

/-- `str.replace(pat, rep)` (for the non-empty patterns used here). -/
def replaceAll (pat rep s : List Char) : List Char :=
  replaceAllFuel pat rep s.length s

/-- `cifti_path.stem.replace('.dtseries', '')`. -/
def ciftiBasename (name : String) : String :=
  ⟨replaceAll ".dtseries".toList [] (stemChars name.toList)⟩

/-- Path of the left native-mesh temporary. -/
def tempLeftName (outDir base : String) : String :=
  outDir ++ "/temp_" ++ base ++ ".L.32k.func.gii"

/-- Path of the right native-mesh temporary. -/
def tempRightName (outDir base : String) : String :=
  outDir ++ "/temp_" ++ base ++ ".R.32k.func.gii"

/-- Path of the left resampled output. -/
def outputLeftName (outDir base : String) : String :=
  outDir ++ "/" ++ base ++ ".L.3k_fsavg_L.func.gii"

/-- Path of the right resampled output. -/
def outputRightName (outDir base : String) : String :=
  outDir ++ "/" ++ base ++ ".R.3k_fsavg_R.func.gii"

/-- The four per-hemisphere reference paths built by the resampler from
one of `SPHERE_FILES` / `AREA_FILES`. -/
structure PathMap where
  fs_LR_32k_L : String
  fs_LR_32k_R : String
  fsavg4_L : String
  fsavg4_R : String
deriving DecidableEq, Repr

/-- `HCPRestResampler.process_cifti_file` on one CIFTI file (given by its
filename; directory components of the input are elided).  Returns the
(success, message) pair of the source, the resulting filesystem, and the
number of external-tool invocations performed. -/
def process_cifti_file (tool : Tool) (sphere area : PathMap)
    (ciftiName outDir : String) (fs : FS) : (Bool × String) × FS × Nat :=
  let basename := ciftiBasename ciftiName
  let temp_left := tempLeftName outDir basename
  let temp_right := tempRightName outDir basename
  let output_left := outputLeftName outDir basename
  let output_right := outputRightName outDir basename
  if fs.hasFile output_left && fs.hasFile output_right then
    ((true, "已存在"), fs, 0)
  else
    let cmd_separate := Cmd.separate ciftiName temp_left temp_right
    let r1 := tool cmd_separate fs
    if r1.returncode ≠ 0 then
      ((false, "错误: " ++ cpeStr cmd_separate r1.returncode),
        cleanupAll r1.fs temp_left temp_right output_left output_right, 1)
    else
      let cmd_left := Cmd.metricResample temp_left sphere.fs_LR_32k_L
        sphere.fsavg4_L "ADAP_BARY_AREA" output_left area.fs_LR_32k_L area.fsavg4_L
      let r2 := tool cmd_left r1.fs
      if r2.returncode ≠ 0 then
        ((false, "错误: " ++ cpeStr cmd_left r2.returncode),
          cleanupAll r2.fs temp_left temp_right output_left output_right, 2)
      else
        let cmd_right := Cmd.metricResample temp_right sphere.fs_LR_32k_R
          sphere.fsavg4_R "ADAP_BARY_AREA" output_right area.fs_LR_32k_R area.fsavg4_R
        let r3 := tool cmd_right r2.fs
        if r3.returncode ≠ 0 then
          ((false, "错误: " ++ cpeStr cmd_right r3.returncode),
            cleanupAll r3.fs temp_left temp_right output_left output_right, 3)
        else
          ((true, "成功"), (r3.fs.unlink temp_left).unlink temp_right, 3)

/-- `HCPRestResampler.process_subject`: run the per-file task over every
discovered REST file (sequentially, threading the filesystem), returning
`(subject, success_count, total, status)`.  The per-subject summary file
and the `mkdir` are reporting effects elided from the model. -/
def process_subject_resample (tool : Tool) (sphere area : PathMap)
    (subject : String) (restFiles : List String) (outDir : String) (fs : FS) :
    (String × Nat × Nat × String) × FS :=
  if restFiles.isEmpty then ((subject, 0, 0, "未找到REST文件"), fs)
  else
    let final := restFiles.foldl
      (fun (acc : Nat × FS) f =>
        let r := process_cifti_file tool sphere area f outDir acc.2
        (acc.1 + (if r.1.1 then 1 else 0), r.2.1))
      (0, fs)
    ((subject, final.1, restFiles.length, "完成"), final.2)

/-! ## Batch scheduler result collection (`HCPRestResampler.run`) -/

/-- What one subject's future delivers back to the scheduler: either the
worker's return tuple, or an uncaught exception. -/
inductive Outcome where
  | completed (subjectId : String) (successCount totalCount : Nat) (status : String)
  | raised (msg : String)
deriving DecidableEq, Repr

/-- Body of the `as_completed` loop: on a delivered result, classify by
`success_count == total_count` and append the returned subject id; on an
exception, append the submitted subject and continue. -/
def collectStep (acc : List String × List String) (r : String × Outcome) :
    List String × List String :=
  match r.2 with
  | .completed sid sc tc _ =>
      if sc = tc then (acc.1 ++ [sid], acc.2) else (acc.1, acc.2 ++ [sid])
  | .raised _ => (acc.1, acc.2 ++ [r.1])

/-- The whole collection loop over the delivered results (in completion
order), starting from the empty success/failure lists. -/
def run_collect (rs : List (String × Outcome)) : List String × List String :=
  rs.foldl collectStep ([], [])

/-! ## Concrete instances used by witnesses and counterexamples -/

/-- A tool oracle whose every invocation succeeds and leaves the
filesystem unchanged. -/
def okTool : Tool := fun _ fs => ⟨0, "", fs⟩

/-- A tool oracle whose separate step fails with exit code 1 and
captured stderr "boom"; resample steps succeed. -/
def failTool : Tool := fun c fs =>
  match c with
  | Cmd.separate _ _ _ => ⟨1, "boom", fs⟩
  | _ => ⟨0, "", fs⟩

/-- Concrete sphere paths. -/
def sph0 : PathMap := ⟨"s1", "s2", "s3", "s4"⟩

/-- Concrete area paths. -/
def area0 : PathMap := ⟨"a1", "a2", "a3", "a4"⟩

/-- A realistic input CIFTI filename. -/
def cx3Name : String := "rfMRI_REST1_LR_Atlas_hp2000_clean.dtseries.nii"

/-- The separate command the per-file task issues for `cx3Name`. -/
def cx3Cmd : Cmd :=
  Cmd.separate cx3Name (tempLeftName "od" (ciftiBasename cx3Name))
    (tempRightName "od" (ciftiBasename cx3Name))

/-- A filename containing the markers of both hemispheres, so that two
classification patterns match it at once. -/
def cx8Name : String := "rfMRI_REST1_LR_Atlas.L..R.func.gii"

/-- A left time series of shape (2, 1). -/
def w1L : TSEntry := ⟨[[Val.fin 1], [Val.fin 2]], "lfile.func.gii", 2, 1⟩

/-- A right time series of shape (2, 2). -/
def w1R : TSEntry := ⟨[[Val.fin 3, Val.fin 4], [Val.fin 5, Val.fin 6]], "rfile.func.gii", 2, 2⟩

/-- A subject dataset with both sides of the REST1_LR pair. -/
def w1D : SubjectData := [("REST1_LR_L", w1L), ("REST1_LR_R", w1R)]

/-- A right time series of shape (1, 2): one timepoint fewer than `w1L`. -/
def w4R : TSEntry := ⟨[[Val.fin 3, Val.fin 4]], "rfile.func.gii", 1, 2⟩

/-- A subject dataset whose REST1_LR pair has mismatched timepoints. -/
def w4D : SubjectData := [("REST1_LR_L", w1L), ("REST1_LR_R", w4R)]

/-- A subject dataset with only the left file of the REST1_LR pair and a
complete REST1_RL pair. -/
def d7 : SubjectData := [("REST1_LR_L", w1L), ("REST1_RL_L", w1L), ("REST1_RL_R", w1R)]

/-- Another realistic input CIFTI filename. -/
def w2Name : String := "rfMRI_REST2_RL_Atlas_hp2000_clean.dtseries.nii"

/-- A filesystem already holding both expected hemisphere outputs for
`w2Name`. -/
def w2FS : FS :=
  ⟨[outputLeftName "od" (ciftiBasename w2Name), outputRightName "od" (ciftiBasename w2Name)]⟩

/-- A merged record with exactly one NaN, all other values finite,
distinct and strictly inside (-1000, 1000), and consistent metadata. -/
def ex6 : MergedEntry :=
  { timeseries := [[Val.fin 1, Val.nan], [Val.fin 2, Val.fin 3]]
    filename := "REST1_LR_bilateral.func.gii", n_timepoints := 2, n_vertices := 2
    n_vertices_left := 1, n_vertices_right := 1
    left_source := "lfile.func.gii", right_source := "rfile.func.gii" }

/-- A merged record whose values are all equal to 5 (inside the band). -/
def ex10 : MergedEntry :=
  { timeseries := [[Val.fin 5, Val.fin 5], [Val.fin 5, Val.fin 5]]
    filename := "REST1_LR_bilateral.func.gii", n_timepoints := 2, n_vertices := 2
    n_vertices_left := 1, n_vertices_right := 1
    left_source := "lfile.func.gii", right_source := "rfile.func.gii" }

/-- Delivered results of a three-subject batch: one fully successful,
one partially failed, one crashed worker. -/
def w5RS : List (String × Outcome) :=
  [("s2", Outcome.completed "s2" 2 2 "完成"),
   ("s1", Outcome.completed "s1" 1 2 "完成"),
   ("s3", Outcome.raised "boom")]

/-- The submitted subjects of that batch. -/
def w5Subjects : List String := ["s1", "s2", "s3"]

theorem lookupM_merge_all (d : SubjectData) :
    (lookupM (merge_hemispheres d) "REST1_LR_bilateral"
      = pairEntry d "REST1_LR_L" "REST1_LR_R" "REST1_LR_bilateral") ∧
    (lookupM (merge_hemispheres d) "REST1_RL_bilateral"
      = pairEntry d "REST1_RL_L" "REST1_RL_R" "REST1_RL_bilateral") ∧
    (lookupM (merge_hemispheres d) "REST2_LR_bilateral"
      = pairEntry d "REST2_LR_L" "REST2_LR_R" "REST2_LR_bilateral") ∧
    (lookupM (merge_hemispheres d) "REST2_RL_bilateral"
      = pairEntry d "REST2_RL_L" "REST2_RL_R" "REST2_RL_bilateral") := by
  cases h1 : pairEntry d "REST1_LR_L" "REST1_LR_R" "REST1_LR_bilateral" <;>
  cases h2 : pairEntry d "REST1_RL_L" "REST1_RL_R" "REST1_RL_bilateral" <;>
  cases h3 : pairEntry d "REST2_LR_L" "REST2_LR_R" "REST2_LR_bilateral" <;>
  cases h4 : pairEntry d "REST2_RL_L" "REST2_RL_R" "REST2_RL_bilateral" <;>
  simp [merge_hemispheres, mergePairs, lookupM, h1, h2, h3, h4]

theorem zipWith_append_getD (l r : List (List Val)) (i : Nat) (h : l.length = r.length) :
    (List.zipWith (fun a b => a ++ b) l r).getD i [] = l.getD i [] ++ r.getD i [] := by
  induction l generalizing r i with
  | nil => cases r with
    | nil => simp
    | cons b rt => simp at h
  | cons a lt ih =>
    cases r with
    | nil => simp at h
    | cons b rt =>
      cases i with
      | zero => simp
      | succ n => simpa using ih rt n (by simpa using h)

theorem mem_zipWith_append (l r : List (List Val)) (z : List Val)
    (hz : z ∈ List.zipWith (fun a b => a ++ b) l r) :
    ∃ a ∈ l, ∃ b ∈ r, z = a ++ b := by
  induction l generalizing r with
  | nil => simp at hz
  | cons a lt ih =>
    cases r with
    | nil => simp at hz
    | cons b rt =>
      simp only [List.zipWith_cons_cons, List.mem_cons] at hz
      rcases hz with h | h
      · exact ⟨a, by simp, b, by simp, h⟩
      · rcases ih rt h with ⟨a', ha, b', hb, he⟩
        exact ⟨a', by simp [ha], b', by simp [hb], he⟩

theorem lookupM_merge_of_mem (d : SubjectData) {lk rk mk : String}
    (h : (lk, rk, mk) ∈ mergePairs) :
    lookupM (merge_hemispheres d) mk = pairEntry d lk rk mk := by
  have H := lookupM_merge_all d
  simp only [mergePairs, List.mem_cons, List.not_mem_nil, or_false,
    Prod.mk.injEq] at h
  rcases h with ⟨rfl, rfl, rfl⟩ | ⟨rfl, rfl, rfl⟩ | ⟨rfl, rfl, rfl⟩ | ⟨rfl, rfl, rfl⟩
  · exact H.1
  · exact H.2.1
  · exact H.2.2.1
  · exact H.2.2.2

theorem mergeEntry_timeseries_of_eq (ld rd : TSEntry) (mk : String)
    (h : ld.timeseries.length = rd.timeseries.length) :
    (mergeEntry ld rd mk).timeseries
      = List.zipWith (fun a b => a ++ b) ld.timeseries rd.timeseries := by
  simp [mergeEntry, h]

theorem mergeEntry_timeseries_of_ne (ld rd : TSEntry) (mk : String)
    (h : ld.timeseries.length ≠ rd.timeseries.length) :
    (mergeEntry ld rd mk).timeseries
      = List.zipWith (fun a b => a ++ b)
          (ld.timeseries.take (min ld.timeseries.length rd.timeseries.length))
          (rd.timeseries.take (min ld.timeseries.length rd.timeseries.length)) := by
  simp [mergeEntry, h]

theorem mergeEntry_n_timepoints (ld rd : TSEntry) (mk : String) :
    (mergeEntry ld rd mk).n_timepoints = (mergeEntry ld rd mk).timeseries.length := rfl

/-- C1: for every subject dataset and every one of the four fixed
(session, phase) pairs whose left and right time series are both present
with the same timepoint count T and vertex counts Vl and Vr, the merged
record has shape (T, Vl+Vr), and for every row the first Vl columns are
exactly the left row and the remaining Vr columns exactly the right row. -/
theorem merge_concat_bit_identical (d : SubjectData) (lk rk mk : String) (ld rd : TSEntry)
    (T Vl Vr : Nat)
    (hpair : (lk, rk, mk) ∈ mergePairs)
    (hl : lookupTS d lk = some ld) (hr : lookupTS d rk = some rd)
    (hlT : ld.timeseries.length = T)
    (hlV : ∀ row ∈ ld.timeseries, row.length = Vl)
    (hrT : rd.timeseries.length = T)
    (hrV : ∀ row ∈ rd.timeseries, row.length = Vr) :
    ∃ e, lookupM (merge_hemispheres d) mk = some e ∧
      e.timeseries.length = T ∧
      (∀ row ∈ e.timeseries, row.length = Vl + Vr) ∧
      (∀ i : Nat, (e.timeseries.getD i []).take Vl = ld.timeseries.getD i []) ∧
      (∀ i : Nat, (e.timeseries.getD i []).drop Vl = rd.timeseries.getD i []) := by
  have hlook := lookupM_merge_of_mem d hpair
  have hts := mergeEntry_timeseries_of_eq ld rd mk (by rw [hlT, hrT])
  have hlen : ld.timeseries.length = rd.timeseries.length := by rw [hlT, hrT]
  refine ⟨mergeEntry ld rd mk, ?_, ?_, ?_, ?_, ?_⟩
  · rw [hlook]; simp [pairEntry, hl, hr]
  · rw [hts, List.length_zipWith, hlT, hrT, Nat.min_self]
  · intro row hrow
    rw [hts] at hrow
    obtain ⟨a, ha, b, hb, rfl⟩ := mem_zipWith_append _ _ _ hrow
    rw [List.length_append, hlV a ha, hrV b hb]
  · intro i
    rw [hts, zipWith_append_getD _ _ i hlen]
    by_cases hi : i < ld.timeseries.length
    · have hmem : ld.timeseries.getD i [] ∈ ld.timeseries := by
        rw [List.getD_eq_getElem _ _ hi]
        exact List.getElem_mem _
      rw [List.take_left' (hlV _ hmem)]
    · rw [List.getD_eq_default _ _ (Nat.le_of_not_lt hi),
        List.getD_eq_default _ _ (by rw [hrT, ← hlT]; exact Nat.le_of_not_lt hi)]
      simp
  · intro i
    rw [hts, zipWith_append_getD _ _ i hlen]
    by_cases hi : i < ld.timeseries.length
    · have hmem : ld.timeseries.getD i [] ∈ ld.timeseries := by
        rw [List.getD_eq_getElem _ _ hi]
        exact List.getElem_mem _
      rw [List.drop_left' (hlV _ hmem)]
    · rw [List.getD_eq_default _ _ (Nat.le_of_not_lt hi),
        List.getD_eq_default _ _ (by rw [hrT, ← hlT]; exact Nat.le_of_not_lt hi)]
      simp

/-- C4: when the left series has Tl timepoints and the right Tr with
Tl different from Tr, the merged record has exactly min(Tl, Tr) timepoints,
formed by concatenating the heads (`take`) of the two inputs, with no
padding or interpolation. -/
theorem merge_truncation_to_min (d : SubjectData) (lk rk mk : String) (ld rd : TSEntry)
    (Tl Tr : Nat)
    (hpair : (lk, rk, mk) ∈ mergePairs)
    (hl : lookupTS d lk = some ld) (hr : lookupTS d rk = some rd)
    (hlT : ld.timeseries.length = Tl)
    (hrT : rd.timeseries.length = Tr)
    (hne : Tl ≠ Tr) :
    ∃ e, lookupM (merge_hemispheres d) mk = some e ∧
      e.n_timepoints = min Tl Tr ∧
      e.timeseries.length = min Tl Tr ∧
      e.timeseries = List.zipWith (fun a b => a ++ b)
        (ld.timeseries.take (min Tl Tr)) (rd.timeseries.take (min Tl Tr)) := by
  have hlook := lookupM_merge_of_mem d hpair
  have hts := mergeEntry_timeseries_of_ne ld rd mk (by rw [hlT, hrT]; exact hne)
  rw [hlT, hrT] at hts
  have hlen : (mergeEntry ld rd mk).timeseries.length = min Tl Tr := by
    rw [hts, List.length_zipWith, List.length_take, List.length_take, hlT, hrT]
    omega
  refine ⟨mergeEntry ld rd mk, ?_, ?_, hlen, hts⟩
  · rw [hlook]; simp [pairEntry, hl, hr]
  · rw [mergeEntry_n_timepoints, hlen]

/-- C7: for any of the four fixed pairs, if the left or the right key is
absent from the subject data, the merged dict has no record for that
pair, while every other pair is still merged exactly as its own two keys
dictate (the merge is a total function on the embedded state: no
exception is raised). -/
theorem merge_missing_side_skips (d : SubjectData) (lk rk mk : String)
    (hpair : (lk, rk, mk) ∈ mergePairs)
    (hmiss : lookupTS d lk = none ∨ lookupTS d rk = none) :
    lookupM (merge_hemispheres d) mk = none ∧
    ∀ lk' rk' mk', (lk', rk', mk') ∈ mergePairs →
      lookupM (merge_hemispheres d) mk' = pairEntry d lk' rk' mk' := by
  constructor
  · rw [lookupM_merge_of_mem d hpair]
    rcases hmiss with h | h
    · simp [pairEntry, h]
    · cases hl : lookupTS d lk <;> simp [pairEntry, h, hl]
  · intro lk' rk' mk' h'
    exact lookupM_merge_of_mem d h'

theorem hasFile_eq (fs : FS) (p : String) : fs.hasFile p = decide (p ∈ fs.files) := by
  simp [FS.hasFile, List.contains, List.elem_eq_mem]

theorem hasFile_unlink_self (fs : FS) (p : String) : (fs.unlink p).hasFile p = false := by
  simp [FS.unlink, hasFile_eq, List.mem_filter]

theorem hasFile_unlink_of_false (fs : FS) (p q : String) (h : fs.hasFile q = false) :
    (fs.unlink p).hasFile q = false := by
  rw [hasFile_eq] at *
  simp only [FS.unlink] at *
  simp only [decide_eq_false_iff_not] at h ⊢
  intro hmem
  exact h (List.mem_of_mem_filter hmem)

theorem cleanup_clears (fs : FS) (a b c d p : String)
    (hp : p = a ∨ p = b ∨ p = c ∨ p = d) :
    (cleanupAll fs a b c d).hasFile p = false := by
  unfold cleanupAll
  rcases hp with rfl | rfl | rfl | rfl
  · exact hasFile_unlink_of_false _ _ _ (hasFile_unlink_of_false _ _ _
      (hasFile_unlink_of_false _ _ _ (hasFile_unlink_self _ _)))
  · exact hasFile_unlink_of_false _ _ _ (hasFile_unlink_of_false _ _ _
      (hasFile_unlink_self _ _))
  · exact hasFile_unlink_of_false _ _ _ (hasFile_unlink_self _ _)
  · exact hasFile_unlink_self _ _

/-- C2: when both expected hemisphere outputs already exist, the per-file
resample task returns the "already done" result (`(True, "已存在")`) with
an unchanged filesystem and zero tool invocations, and running it a
second time gives the same result with zero invocations again. -/
theorem resample_short_circuit_idempotent (tool : Tool) (sphere area : PathMap) (ciftiName outDir : String) (fs : FS)
    (hL : fs.hasFile (outputLeftName outDir (ciftiBasename ciftiName)) = true)
    (hR : fs.hasFile (outputRightName outDir (ciftiBasename ciftiName)) = true) :
    process_cifti_file tool sphere area ciftiName outDir fs = ((true, "已存在"), fs, 0) ∧
    process_cifti_file tool sphere area ciftiName outDir
        (process_cifti_file tool sphere area ciftiName outDir fs).2.1
      = ((true, "已存在"), fs, 0) := by
  have h1 : process_cifti_file tool sphere area ciftiName outDir fs
      = ((true, "已存在"), fs, 0) := by
    simp [process_cifti_file, hL, hR]
  exact ⟨h1, by rw [h1]; exact h1⟩

/-- C3 (amended): whenever the per-file resample task returns failure,
all four intermediate/partial output files of the task are absent from
the resulting filesystem, and the returned error message is the Python
exception text of the failing invocation — the command and its exit
status — not the captured stderr. -/
theorem resample_failure_cleanup_and_message (tool : Tool) (sphere area : PathMap) (ciftiName outDir : String) (fs : FS)
    (hfail : (process_cifti_file tool sphere area ciftiName outDir fs).1.1 = false) :
    (∀ p ∈ [tempLeftName outDir (ciftiBasename ciftiName),
            tempRightName outDir (ciftiBasename ciftiName),
            outputLeftName outDir (ciftiBasename ciftiName),
            outputRightName outDir (ciftiBasename ciftiName)],
        ((process_cifti_file tool sphere area ciftiName outDir fs).2.1).hasFile p = false) ∧
    ∃ c code, code ≠ 0 ∧
      (process_cifti_file tool sphere area ciftiName outDir fs).1.2
        = "错误: " ++ cpeStr c code := by
  revert hfail
  simp only [process_cifti_file]
  split
  · intro h; simp at h
  · split
    · rename_i hc
      intro _
      refine ⟨?_, _, _, hc, rfl⟩
      intro p hp
      simp only [List.mem_cons, List.not_mem_nil, or_false] at hp
      exact cleanup_clears _ _ _ _ _ _ hp
    · split
      · rename_i hc
        intro _
        refine ⟨?_, _, _, hc, rfl⟩
        intro p hp
        simp only [List.mem_cons, List.not_mem_nil, or_false] at hp
        exact cleanup_clears _ _ _ _ _ _ hp
      · split
        · rename_i hc
          intro _
          refine ⟨?_, _, _, hc, rfl⟩
          intro p hp
          simp only [List.mem_cons, List.not_mem_nil, or_false] at hp
          exact cleanup_clears _ _ _ _ _ _ hp
        · intro h; simp at h

/-- C9: a subject with zero discovered REST files returns
`(subject, 0, 0, "未找到REST文件")` (the code's literal for "no REST
files found") with the filesystem untouched, and the scheduler then
classifies that subject as fully successful because 0 == 0. -/
theorem empty_subject_counts_successful (tool : Tool) (sphere area : PathMap) (subject outDir : String) (fs : FS) :
    process_subject_resample tool sphere area subject [] outDir fs
      = ((subject, 0, 0, "未找到REST文件"), fs) ∧
    run_collect [(subject, Outcome.completed subject 0 0 "未找到REST文件")]
      = ([subject], []) := by
  constructor
  · simp [process_subject_resample]
  · rfl

theorem collect_go (rs : List (String × Outcome)) :
    ∀ a b : List String,
      rs.foldl collectStep (a, b) = (a ++ (run_collect rs).1, b ++ (run_collect rs).2) := by
  induction rs with
  | nil => intro a b; simp [run_collect]
  | cons r t ih =>
    intro a b
    rcases r with ⟨s, o⟩
    cases o with
    | completed sid sc tc st =>
      by_cases hsc : sc = tc
      · simp only [run_collect, List.foldl_cons, collectStep, hsc, if_pos]
        rw [ih, ih]
        simp
      · simp only [run_collect, List.foldl_cons, collectStep, if_neg hsc]
        rw [ih, ih]
        simp
    | raised m =>
      simp only [run_collect, List.foldl_cons, collectStep]
      rw [ih, ih]
      simp

theorem run_collect_cons (r : String × Outcome) (t : List (String × Outcome)) :
    run_collect (r :: t)
      = ((collectStep ([], []) r).1 ++ (run_collect t).1,
         (collectStep ([], []) r).2 ++ (run_collect t).2) := by
  rw [run_collect, List.foldl_cons, collect_go]

theorem mem_run_collect_succ (rs : List (String × Outcome)) (s : String) :
    s ∈ (run_collect rs).1
      ↔ ∃ r ∈ rs, ∃ sc tc st, r.2 = Outcome.completed s sc tc st ∧ sc = tc := by
  induction rs with
  | nil => simp [run_collect]
  | cons r t ih =>
    rw [run_collect_cons]
    rcases r with ⟨sj, o⟩
    cases o with
    | completed sid sc tc st =>
      by_cases hsc : sc = tc
      · simp [collectStep, hsc, ih, eq_comm]
      · simp [collectStep, hsc, ih]
        intro _ h
        exact absurd h.symm hsc
    | raised m => simp [collectStep, ih]

theorem mem_run_collect_fail (rs : List (String × Outcome)) (s : String) :
    s ∈ (run_collect rs).2
      ↔ (∃ r ∈ rs, ∃ sc tc st, r.2 = Outcome.completed s sc tc st ∧ sc ≠ tc)
        ∨ (∃ r ∈ rs, r.1 = s ∧ ∃ m, r.2 = Outcome.raised m) := by
  induction rs with
  | nil => simp [run_collect]
  | cons r t ih =>
    rw [run_collect_cons]
    rcases r with ⟨sj, o⟩
    cases o with
    | completed sid sc tc st =>
      by_cases hsc : sc = tc
      · simp [collectStep, hsc, ih, or_assoc, or_left_comm]
      · simp [collectStep, hsc, ih, eq_comm, or_assoc, or_left_comm]
        constructor
        · rintro (h | h | h)
          · exact Or.inl ⟨sc, tc, ⟨h, rfl, rfl⟩, hsc⟩
          · exact Or.inr (Or.inl h)
          · exact Or.inr (Or.inr h)
        · rintro (⟨sc', tc', ⟨h1, h2, h3⟩, h4⟩ | h | h)
          · exact Or.inl h1
          · exact Or.inr (Or.inl h)
          · exact Or.inr (Or.inr h)
    | raised m =>
      simp [collectStep, ih, eq_comm, or_assoc, or_left_comm]

theorem inj_of_nodup_map (l : List (String × Outcome))
    (h : (l.map Prod.fst).Nodup) :
    ∀ r ∈ l, ∀ r' ∈ l, r.1 = r'.1 → r = r' := by
  induction l with
  | nil => simp
  | cons x t ih =>
    simp only [List.map_cons, List.nodup_cons] at h
    intro r hr r' hr' he
    rcases List.mem_cons.mp hr with rfl | hr₂ <;>
      rcases List.mem_cons.mp hr' with rfl | hr₂'
    · rfl
    · exact absurd (he ▸ List.mem_map_of_mem Prod.fst hr₂') h.1
    · exact absurd (he ▸ List.mem_map_of_mem Prod.fst hr₂) h.1
    · exact ih h.2 r hr₂ r' hr₂' he

/-- C5: given the delivered results of all submitted subjects (in any
completion order), the success and failure lists partition the subjects
exactly: every subject lands in exactly one list, no outsider appears, a
completed worker's subject is on the success list iff
success_count == total_count, and a crashed worker's subject is on the
failure list (the collection loop handles every delivered result, so the
batch always continues). -/
theorem batch_partition_accounting (rs : List (String × Outcome)) (subjects : List String)
    (Hid : ∀ r ∈ rs, ∀ sid sc tc st, r.2 = Outcome.completed sid sc tc st → sid = r.1)
    (Hperm : (rs.map Prod.fst).Perm subjects)
    (Hnodup : subjects.Nodup) :
    (∀ s ∈ subjects,
      (s ∈ (run_collect rs).1 ∧ s ∉ (run_collect rs).2) ∨
      (s ∉ (run_collect rs).1 ∧ s ∈ (run_collect rs).2)) ∧
    (∀ s, s ∈ (run_collect rs).1 → s ∈ subjects) ∧
    (∀ s, s ∈ (run_collect rs).2 → s ∈ subjects) ∧
    (∀ r ∈ rs, ∀ sid sc tc st, r.2 = Outcome.completed sid sc tc st →
      (r.1 ∈ (run_collect rs).1 ↔ sc = tc)) ∧
    (∀ r ∈ rs, ∀ m, r.2 = Outcome.raised m → r.1 ∈ (run_collect rs).2) := by
  have Hnd : (rs.map Prod.fst).Nodup := Hperm.nodup_iff.mpr Hnodup
  have Hinj := inj_of_nodup_map rs Hnd
  -- membership in either output list forces an entry whose submitted subject is s
  have hsucc_entry : ∀ s, s ∈ (run_collect rs).1 → ∃ r ∈ rs, r.1 = s := by
    intro s hs
    obtain ⟨r, hr, sc, tc, st, hco, _⟩ := (mem_run_collect_succ rs s).mp hs
    exact ⟨r, hr, (Hid r hr s sc tc st hco).symm⟩
  have hfail_entry : ∀ s, s ∈ (run_collect rs).2 → ∃ r ∈ rs, r.1 = s := by
    intro s hs
    rcases (mem_run_collect_fail rs s).mp hs with ⟨r, hr, sc, tc, st, hco, _⟩ | ⟨r, hr, he, _⟩
    · exact ⟨r, hr, (Hid r hr s sc tc st hco).symm⟩
    · exact ⟨r, hr, he⟩
  have hmem_subj : ∀ s, (∃ r ∈ rs, r.1 = s) → s ∈ subjects := by
    intro s ⟨r, hr, he⟩
    exact Hperm.mem_iff.mp (he ▸ List.mem_map_of_mem Prod.fst hr)
  -- never in both lists
  have hnotboth : ∀ s, s ∈ (run_collect rs).1 → s ∈ (run_collect rs).2 → False := by
    intro s hs hf
    obtain ⟨r, hr, sc, tc, st, hco, hsc⟩ := (mem_run_collect_succ rs s).mp hs
    have hr1 : r.1 = s := (Hid r hr s sc tc st hco).symm
    rcases (mem_run_collect_fail rs s).mp hf with ⟨r', hr', sc', tc', st', hco', hsc'⟩ | ⟨r', hr', he', m, hm⟩
    · have hr1' : r'.1 = s := (Hid r' hr' s sc' tc' st' hco').symm
      have : r = r' := Hinj r hr r' hr' (hr1.trans hr1'.symm)
      subst this
      rw [hco] at hco'
      cases hco'
      exact hsc' hsc
    · have : r = r' := Hinj r hr r' hr' (hr1.trans he'.symm)
      subst this
      rw [hco] at hm
      cases hm
  refine ⟨?_, fun s hs => hmem_subj s (hsucc_entry s hs),
    fun s hs => hmem_subj s (hfail_entry s hs), ?_, ?_⟩
  · intro s hsub
    have hsmem : s ∈ rs.map Prod.fst := Hperm.mem_iff.mpr hsub
    obtain ⟨r, hr, he⟩ := List.mem_map.mp hsmem
    cases hco : r.2 with
    | completed sid sc tc st =>
      have hsid : sid = r.1 := Hid r hr sid sc tc st hco
      by_cases hsc : sc = tc
      · left
        have hs : s ∈ (run_collect rs).1 := (mem_run_collect_succ rs s).mpr
          ⟨r, hr, sc, tc, st, by rw [hco, hsid, he], hsc⟩
        exact ⟨hs, fun hf => hnotboth s hs hf⟩
      · right
        have hf : s ∈ (run_collect rs).2 := (mem_run_collect_fail rs s).mpr
          (Or.inl ⟨r, hr, sc, tc, st, by rw [hco, hsid, he], hsc⟩)
        exact ⟨fun hs => hnotboth s hs hf, hf⟩
    | raised m =>
      right
      have hf : s ∈ (run_collect rs).2 := (mem_run_collect_fail rs s).mpr
        (Or.inr ⟨r, hr, he, m, hco⟩)
      exact ⟨fun hs => hnotboth s hs hf, hf⟩
  · intro r hr sid sc tc st hco
    have hsid : sid = r.1 := Hid r hr sid sc tc st hco
    constructor
    · intro hs
      obtain ⟨r', hr', sc', tc', st', hco', hsc'⟩ := (mem_run_collect_succ rs r.1).mp hs
      have hr1' : r'.1 = r.1 := (Hid r' hr' r.1 sc' tc' st' hco').symm
      have : r' = r := Hinj r' hr' r hr hr1'
      subst this
      rw [hco] at hco'
      cases hco'
      exact hsc'
    · intro hsc
      exact (mem_run_collect_succ rs r.1).mpr ⟨r, hr, sc, tc, st, by rw [hco, hsid], hsc⟩
  · intro r hr m hm
    exact (mem_run_collect_fail rs r.1).mpr (Or.inr ⟨r, hr, rfl, m, hm⟩)

theorem vmin_nan_left (b : Val) : Val.vmin Val.nan b = Val.nan := by cases b <;> rfl

theorem vmin_nan_right (a : Val) : Val.vmin a Val.nan = Val.nan := by cases a <;> rfl

theorem vmax_nan_left (b : Val) : Val.vmax Val.nan b = Val.nan := by cases b <;> rfl

theorem vmax_nan_right (a : Val) : Val.vmax a Val.nan = Val.nan := by cases a <;> rfl

theorem vlt_nan_right (a : Val) : Val.vlt a Val.nan = false := by cases a <;> rfl

theorem foldl_vmin_nan (xs : List Val) :
    ∀ a : Val, (a = Val.nan ∨ Val.nan ∈ xs) → xs.foldl Val.vmin a = Val.nan := by
  induction xs with
  | nil =>
    intro a h
    rcases h with rfl | h
    · rfl
    · simp at h
  | cons x t ih =>
    intro a h
    rcases h with rfl | h
    · exact ih _ (Or.inl (vmin_nan_left x))
    · rcases List.mem_cons.mp h with rfl | hmem
      · exact ih _ (Or.inl (vmin_nan_right a))
      · exact ih _ (Or.inr hmem)

theorem foldl_vmax_nan (xs : List Val) :
    ∀ a : Val, (a = Val.nan ∨ Val.nan ∈ xs) → xs.foldl Val.vmax a = Val.nan := by
  induction xs with
  | nil =>
    intro a h
    rcases h with rfl | h
    · rfl
    · simp at h
  | cons x t ih =>
    intro a h
    rcases h with rfl | h
    · exact ih _ (Or.inl (vmax_nan_left x))
    · rcases List.mem_cons.mp h with rfl | hmem
      · exact ih _ (Or.inl (vmax_nan_right a))
      · exact ih _ (Or.inr hmem)

theorem matReduce_vmin_nan (m : Mat) (h : Val.nan ∈ elems m) :
    matReduce Val.vmin m = Val.nan := by
  unfold matReduce
  cases helems : elems m with
  | nil => rfl
  | cons x xs =>
    rw [helems] at h
    rcases List.mem_cons.mp h with rfl | hmem
    · exact foldl_vmin_nan xs _ (Or.inl rfl)
    · exact foldl_vmin_nan xs x (Or.inr hmem)

theorem foldl_vmin_const (v : ℚ) (xs : List Val) :
    ∀ a : Val, (∀ x ∈ xs, x = Val.fin v) → a = Val.fin v →
      xs.foldl Val.vmin a = Val.fin v := by
  induction xs with
  | nil => intro a _ ha; simpa using ha
  | cons x t ih =>
    intro a hall ha
    have hx : x = Val.fin v := hall x (List.mem_cons_self x t)
    subst ha; subst hx
    have : Val.vmin (Val.fin v) (Val.fin v) = Val.fin v := by simp [Val.vmin]
    rw [List.foldl_cons, this]
    exact ih _ (fun y hy => hall y (List.mem_cons_of_mem _ hy)) rfl

theorem foldl_vmax_const (v : ℚ) (xs : List Val) :
    ∀ a : Val, (∀ x ∈ xs, x = Val.fin v) → a = Val.fin v →
      xs.foldl Val.vmax a = Val.fin v := by
  induction xs with
  | nil => intro a _ ha; simpa using ha
  | cons x t ih =>
    intro a hall ha
    have hx : x = Val.fin v := hall x (List.mem_cons_self x t)
    subst ha; subst hx
    have : Val.vmax (Val.fin v) (Val.fin v) = Val.fin v := by simp [Val.vmax]
    rw [List.foldl_cons, this]
    exact ih _ (fun y hy => hall y (List.mem_cons_of_mem _ hy)) rfl

theorem matReduce_vmin_const (v : ℚ) (m : Mat)
    (h : ∀ x ∈ elems m, x = Val.fin v) (hne : elems m ≠ []) :
    matReduce Val.vmin m = Val.fin v := by
  unfold matReduce
  cases helems : elems m with
  | nil => exact absurd helems hne
  | cons x xs =>
    rw [helems] at h
    exact foldl_vmin_const v xs x (fun y hy => h y (List.mem_cons_of_mem _ hy))
      (h x (List.mem_cons_self x xs))

theorem matReduce_vmax_const (v : ℚ) (m : Mat)
    (h : ∀ x ∈ elems m, x = Val.fin v) (hne : elems m ≠ []) :
    matReduce Val.vmax m = Val.fin v := by
  unfold matReduce
  cases helems : elems m with
  | nil => exact absurd helems hne
  | cons x xs =>
    rw [helems] at h
    exact foldl_vmax_const v xs x (fun y hy => h y (List.mem_cons_of_mem _ hy))
      (h x (List.mem_cons_self x xs))

/-- C6 (amended): a merged record containing a NaN whose other values
are finite and strictly inside (-1000, 1000), with positive shape and
consistent vertex metadata, fails exactly the `no_nan` check and the
`reasonable_range` check (NaN propagates into `ts.min()`, making the
band comparison false) and no others; and `process_subject` saves every
merged record regardless of the validation verdict, so the record is
still persisted. -/
theorem validator_nan_failed_checks_and_persistence (e : MergedEntry)
    (hnan : Val.nan ∈ elems e.timeseries)
    (hother : ∀ x ∈ elems e.timeseries,
      x = Val.nan ∨ ∃ q : ℚ, x = Val.fin q ∧ -1000 < q ∧ q < 1000)
    (hrows : 0 < nrows e.timeseries)
    (hcols : 0 < ncols e.timeseries)
    (hvm : ncols e.timeseries = e.n_vertices_left + e.n_vertices_right) :
    failedChecks (computeChecks e) = ["no_nan", "reasonable_range"] ∧
    (∀ d : SubjectData,
      (process_subject_merge (some d)).saved = merge_hemispheres d ∧
      ((merge_hemispheres d).isEmpty = false →
        (process_subject_merge (some d)).success = true)) := by
  constructor
  · have hmn : matReduce Val.vmin e.timeseries = Val.nan := matReduce_vmin_nan _ hnan
    have hnn : (elems e.timeseries).any Val.isNan = true :=
      List.any_eq_true.mpr ⟨_, hnan, rfl⟩
    have hni : (elems e.timeseries).any Val.isInf = false := by
      rw [List.any_eq_false]
      intro x hx
      rcases hother x hx with rfl | ⟨q, rfl, _, _⟩ <;> simp [Val.isInf]
    have hpos : 0 < e.n_vertices_left + e.n_vertices_right := hvm ▸ hcols
    simp only [failedChecks, computeChecks, hmn, hnn, hni, hvm]
    simp [hrows, hpos, vlt_nan_right]
  · intro d
    constructor
    · by_cases hempty : (merge_hemispheres d).isEmpty
      · rw [List.isEmpty_iff] at hempty
        simp [process_subject_merge, hempty]
      · simp [process_subject_merge, hempty]
    · intro hne
      simp [process_subject_merge, hne]

/-- C10: a merged record whose values are all equal fails the
sanity-band check even when the common value lies strictly inside
(-1000, 1000), because the chained comparison requires
`ts.min() < ts.max()` strictly. -/
theorem constant_record_fails_range_check (e : MergedEntry) (v : ℚ)
    (hall : ∀ x ∈ elems e.timeseries, x = Val.fin v)
    (hne : elems e.timeseries ≠ [])
    (hlo : -1000 < v) (hhi : v < 1000) :
    (computeChecks e).reasonable_range = false := by
  have hmn : matReduce Val.vmin e.timeseries = Val.fin v := matReduce_vmin_const v _ hall hne
  have hmx : matReduce Val.vmax e.timeseries = Val.fin v := matReduce_vmax_const v _ hall hne
  simp only [computeChecks, hmn, hmx]
  simp [Val.vlt]

theorem find?_append_of_none {α : Type} (p : α → Bool) :
    ∀ (pre rest : List α), (∀ x ∈ pre, p x = false) →
      (pre ++ rest).find? p = rest.find? p := by
  intro pre
  induction pre with
  | nil => intro rest _; rfl
  | cons a t ih =>
    intro rest h
    rw [List.cons_append, List.find?_cons_of_neg, ih rest (fun x hx => h x (List.mem_cons_of_mem _ hx))]
    simp [h a (List.mem_cons_self a t)]

/-- C8 (amended): `parse_filename` assigns a key only when every
required substring of that key's pattern is present, returns the first
matching pattern in the declared order, and returns `None` when no
pattern fully matches.  The patterns themselves are not mutually
exclusive (see the counterexample), so the result is pinned down by the
declared order, not by uniqueness of the match. -/
theorem parse_filename_first_match_not_exclusive :
    (∀ name key, parse_filename name = some key →
      ∃ subs, (key, subs) ∈ patterns ∧ ∀ sub ∈ subs, hasSubstrS name sub = true) ∧
    (∀ name pre key subs post,
      patterns = pre ++ (key, subs) :: post →
      (∀ p ∈ pre, patMatches name p.2 = false) →
      patMatches name subs = true →
      parse_filename name = some key) ∧
    (∀ name, (∀ p ∈ patterns, patMatches name p.2 = false) →
      parse_filename name = none) := by
  refine ⟨?_, ?_, ?_⟩
  · intro name key h
    rw [parse_filename, Option.map_eq_some'] at h
    obtain ⟨kp, hfind, hfst⟩ := h
    have hmem := List.mem_of_find?_eq_some hfind
    have hmatch := List.find?_some hfind
    refine ⟨kp.2, ?_, ?_⟩
    · rw [← hfst]; exact hmem
    · intro sub hs
      rw [patMatches, List.all_eq_true] at hmatch
      exact hmatch sub hs
  · intro name pre key subs post hpat hpre hmatch
    have hhead : List.find? (fun x => patMatches name x.2) ((key, subs) :: post)
        = some (key, subs) :=
      List.find?_cons_of_pos _ (by simpa using hmatch)
    rw [parse_filename, hpat, find?_append_of_none _ pre _ hpre, hhead]
    rfl
  · intro name h
    rw [parse_filename, List.find?_eq_none.mpr]
    · rfl
    · intro x hx
      simp [h x hx]

/-- C1 witness: at a concrete dataset with matching shapes (2,1) and
(2,2), the hypotheses hold and the merged record is as stated. -/
theorem merge_concat_bit_identical_witness :
    (("REST1_LR_L", "REST1_LR_R", "REST1_LR_bilateral") ∈ mergePairs) ∧
    lookupTS w1D "REST1_LR_L" = some w1L ∧
    lookupTS w1D "REST1_LR_R" = some w1R ∧
    (∃ e, lookupM (merge_hemispheres w1D) "REST1_LR_bilateral" = some e ∧
      e.timeseries.length = 2 ∧
      (∀ row ∈ e.timeseries, row.length = 1 + 2) ∧
      (∀ i : Nat, (e.timeseries.getD i []).take 1 = w1L.timeseries.getD i []) ∧
      (∀ i : Nat, (e.timeseries.getD i []).drop 1 = w1R.timeseries.getD i [])) :=
  ⟨by decide, by decide, by decide,
    merge_concat_bit_identical w1D "REST1_LR_L" "REST1_LR_R" "REST1_LR_bilateral"
      w1L w1R 2 1 2 (by decide) (by decide) (by decide) (by decide) (by decide)
      (by decide) (by decide)⟩

/-- C2 witness: at a concrete filesystem already holding both outputs,
the hypotheses hold and the task short-circuits twice with zero
invocations. -/
theorem resample_short_circuit_idempotent_witness :
    w2FS.hasFile (outputLeftName "od" (ciftiBasename w2Name)) = true ∧
    w2FS.hasFile (outputRightName "od" (ciftiBasename w2Name)) = true ∧
    (process_cifti_file okTool sph0 area0 w2Name "od" w2FS = ((true, "已存在"), w2FS, 0) ∧
     process_cifti_file okTool sph0 area0 w2Name "od"
        (process_cifti_file okTool sph0 area0 w2Name "od" w2FS).2.1
      = ((true, "已存在"), w2FS, 0)) :=
  ⟨by decide, by decide,
    resample_short_circuit_idempotent okTool sph0 area0 w2Name "od" w2FS
      (by decide) (by decide)⟩

/-- C3 counterexample: a run whose separate invocation fails with
captured stderr "boom" returns Failed, but the returned error message
does not contain (and is not) that stderr text, refuting the claim that
the stderr is carried as the error message. -/
theorem resample_failure_counterexample :
    (process_cifti_file failTool sph0 area0 cx3Name "od" ⟨[]⟩).1.1 = false ∧
    (failTool cx3Cmd ⟨[]⟩).stderr = "boom" ∧
    hasSubstrS (process_cifti_file failTool sph0 area0 cx3Name "od" ⟨[]⟩).1.2 "boom" = false ∧
    (process_cifti_file failTool sph0 area0 cx3Name "od" ⟨[]⟩).1.2 ≠ "boom" := by
  refine ⟨by decide, by decide, by decide, by decide⟩

/-- C3 witness: the amended theorem applied at the concrete failing run. -/
theorem resample_failure_cleanup_and_message_witness :
    (process_cifti_file failTool sph0 area0 cx3Name "od" ⟨[]⟩).1.1 = false ∧
    ((∀ p ∈ [tempLeftName "od" (ciftiBasename cx3Name),
             tempRightName "od" (ciftiBasename cx3Name),
             outputLeftName "od" (ciftiBasename cx3Name),
             outputRightName "od" (ciftiBasename cx3Name)],
        ((process_cifti_file failTool sph0 area0 cx3Name "od" ⟨[]⟩).2.1).hasFile p = false) ∧
     ∃ c code, code ≠ 0 ∧
       (process_cifti_file failTool sph0 area0 cx3Name "od" ⟨[]⟩).1.2
         = "错误: " ++ cpeStr c code) :=
  ⟨by decide,
    resample_failure_cleanup_and_message failTool sph0 area0 cx3Name "od" ⟨[]⟩ (by decide)⟩

/-- C4 witness: left with 2 timepoints, right with 1: the merged record
has min 2 1 = 1 timepoints taken from the heads. -/
theorem merge_truncation_to_min_witness :
    (("REST1_LR_L", "REST1_LR_R", "REST1_LR_bilateral") ∈ mergePairs) ∧
    lookupTS w4D "REST1_LR_L" = some w1L ∧
    lookupTS w4D "REST1_LR_R" = some w4R ∧
    (2 : Nat) ≠ 1 ∧
    (∃ e, lookupM (merge_hemispheres w4D) "REST1_LR_bilateral" = some e ∧
      e.n_timepoints = min 2 1 ∧
      e.timeseries.length = min 2 1 ∧
      e.timeseries = List.zipWith (fun a b => a ++ b)
        (w1L.timeseries.take (min 2 1)) (w4R.timeseries.take (min 2 1))) :=
  ⟨by decide, by decide, by decide, by decide,
    merge_truncation_to_min w4D "REST1_LR_L" "REST1_LR_R" "REST1_LR_bilateral"
      w1L w4R 2 1 (by decide) (by decide) (by decide) (by decide) (by decide)
      (by decide)⟩

/-- C5 witness: a concrete three-subject batch (one success, one partial
failure, one crashed worker) with its hypotheses discharged. -/
theorem batch_partition_accounting_witness :
    (∀ r ∈ w5RS, ∀ sid sc tc st, r.2 = Outcome.completed sid sc tc st → sid = r.1) ∧
    (w5RS.map Prod.fst).Perm w5Subjects ∧
    w5Subjects.Nodup ∧
    ((∀ s ∈ w5Subjects,
        (s ∈ (run_collect w5RS).1 ∧ s ∉ (run_collect w5RS).2) ∨
        (s ∉ (run_collect w5RS).1 ∧ s ∈ (run_collect w5RS).2)) ∧
     (∀ s, s ∈ (run_collect w5RS).1 → s ∈ w5Subjects) ∧
     (∀ s, s ∈ (run_collect w5RS).2 → s ∈ w5Subjects) ∧
     (∀ r ∈ w5RS, ∀ sid sc tc st, r.2 = Outcome.completed sid sc tc st →
        (r.1 ∈ (run_collect w5RS).1 ↔ sc = tc)) ∧
     (∀ r ∈ w5RS, ∀ m, r.2 = Outcome.raised m → r.1 ∈ (run_collect w5RS).2)) := by
  have hid : ∀ r ∈ w5RS, ∀ sid sc tc st, r.2 = Outcome.completed sid sc tc st → sid = r.1 := by
    intro r hr sid sc tc st hco
    fin_cases hr <;> simp_all
  have hperm : (w5RS.map Prod.fst).Perm w5Subjects := by decide
  have hnodup : w5Subjects.Nodup := by decide
  exact ⟨hid, hperm, hnodup, batch_partition_accounting w5RS w5Subjects hid hperm hnodup⟩

/-- C6 counterexample: a well-formed record with exactly one NaN fails
both the no-NaN check and the sanity-band check, not the no-NaN check
alone. -/
theorem validator_nan_counterexample :
    failedChecks (computeChecks ex6) = ["no_nan", "reasonable_range"] ∧
    failedChecks (computeChecks ex6) ≠ ["no_nan"] := by
  refine ⟨by decide, by decide⟩

/-- C6 witness: the amended theorem applied at the concrete one-NaN
record. -/
theorem validator_nan_failed_checks_and_persistence_witness :
    Val.nan ∈ elems ex6.timeseries ∧
    (0 : Nat) < nrows ex6.timeseries ∧
    (0 : Nat) < ncols ex6.timeseries ∧
    ncols ex6.timeseries = ex6.n_vertices_left + ex6.n_vertices_right ∧
    (failedChecks (computeChecks ex6) = ["no_nan", "reasonable_range"] ∧
     (∀ d : SubjectData,
       (process_subject_merge (some d)).saved = merge_hemispheres d ∧
       ((merge_hemispheres d).isEmpty = false →
         (process_subject_merge (some d)).success = true))) := by
  have hother : ∀ x ∈ elems ex6.timeseries,
      x = Val.nan ∨ ∃ q : ℚ, x = Val.fin q ∧ -1000 < q ∧ q < 1000 := by
    intro x hx
    fin_cases hx
    · exact Or.inr ⟨1, rfl, by norm_num, by norm_num⟩
    · exact Or.inl rfl
    · exact Or.inr ⟨2, rfl, by norm_num, by norm_num⟩
    · exact Or.inr ⟨3, rfl, by norm_num, by norm_num⟩
  exact ⟨by decide, by decide, by decide, by decide,
    validator_nan_failed_checks_and_persistence ex6 (by decide) hother
      (by decide) (by decide) (by decide)⟩

/-- C7 witness: a dataset missing the right side of REST1_LR yields no
REST1_LR_bilateral record while REST1_RL is still governed by its own
pair. -/
theorem merge_missing_side_skips_witness :
    (("REST1_LR_L", "REST1_LR_R", "REST1_LR_bilateral") ∈ mergePairs) ∧
    (lookupTS d7 "REST1_LR_L" = none ∨ lookupTS d7 "REST1_LR_R" = none) ∧
    (lookupM (merge_hemispheres d7) "REST1_LR_bilateral" = none ∧
     ∀ lk' rk' mk', (lk', rk', mk') ∈ mergePairs →
       lookupM (merge_hemispheres d7) mk' = pairEntry d7 lk' rk' mk') :=
  ⟨by decide, by decide,
    merge_missing_side_skips d7 "REST1_LR_L" "REST1_LR_R" "REST1_LR_bilateral"
      (by decide) (by decide)⟩

/-- C8 counterexample: a filename matching two patterns at once, so the
eight patterns are not mutually exclusive and the assigned key is fixed
only by the declared order. -/
theorem parse_filename_counterexample :
    patMatches cx8Name ["REST1", "LR", ".L."] = true ∧
    patMatches cx8Name ["REST1", "LR", ".R."] = true ∧
    ("REST1_LR_L", ["REST1", "LR", ".L."]) ∈ patterns ∧
    ("REST1_LR_R", ["REST1", "LR", ".R."]) ∈ patterns ∧
    2 ≤ matchCount cx8Name ∧
    parse_filename cx8Name = some "REST1_LR_L" := by
  refine ⟨by decide, by decide, by decide, by decide, by decide, by decide⟩

/-- C8 witness: the first-match clause of the amended theorem applied at
a realistic resampled-output filename, which skips the two non-matching
patterns ahead of it. -/
theorem parse_filename_first_match_not_exclusive_witness :
    patMatches "rfMRI_REST1_RL_Atlas_hp2000_clean.L.3k_fsavg_L.func.gii"
      ["REST1", "RL", ".L."] = true ∧
    parse_filename "rfMRI_REST1_RL_Atlas_hp2000_clean.L.3k_fsavg_L.func.gii"
      = some "REST1_RL_L" :=
  ⟨by decide,
    parse_filename_first_match_not_exclusive.2.1
      "rfMRI_REST1_RL_Atlas_hp2000_clean.L.3k_fsavg_L.func.gii"
      [("REST1_LR_L", ["REST1", "LR", ".L."]), ("REST1_LR_R", ["REST1", "LR", ".R."])]
      "REST1_RL_L" ["REST1", "RL", ".L."]
      [("REST1_RL_R", ["REST1", "RL", ".R."]),
       ("REST2_LR_L", ["REST2", "LR", ".L."]),
       ("REST2_LR_R", ["REST2", "LR", ".R."]),
       ("REST2_RL_L", ["REST2", "RL", ".L."]),
       ("REST2_RL_R", ["REST2", "RL", ".R."])]
      rfl (by decide) (by decide)⟩

/-- C10 witness: the all-fives record, with values strictly inside the
band, still fails the sanity-band check. -/
theorem constant_record_fails_range_check_witness :
    (∀ x ∈ elems ex10.timeseries, x = Val.fin 5) ∧
    elems ex10.timeseries ≠ [] ∧
    (-1000 : ℚ) < 5 ∧ (5 : ℚ) < 1000 ∧
    (computeChecks ex10).reasonable_range = false :=
  ⟨by decide, by decide, by norm_num, by norm_num,
    constant_record_fails_range_check ex10 5 (by decide) (by decide)
      (by norm_num) (by norm_num)⟩
